import Mathlib

/-!
Verification of the `go-future` library (`github.com/xigexb/go-future`).

We give a shallow embedding of the completion state machine of
`future.CompletableFuture[T]` (src/future/cf.go), of the aggregation
combinators `AllOf`/`AnyOf` (src/unnamed/part_000), of the unary
operators `uniApply`/`uniWhenComplete` (src/unnamed/part_001), of the
deadline guard `OrTimeout` and of the legacy `Cancel` variant
(src/future/timeout.go).

Concurrency model: every mutation of a cell in the Go source happens
either after winning the `Pending → Completing` compare-and-swap on
`state` (so only one thread ever runs `finishCompletion`) or inside the
cell's single mutex (`getDoneChanLazy`, registration, the obtrude
methods).  We therefore model a concurrent execution as a sequence of
atomic operations (`Op`) applied to the cell state — each element of the
sequence is one CAS-or-mutex-protected critical section, which is the
linearization granularity the source itself enforces.

Continuations are identified by opaque ids (`Nat`); invoking a
continuation is recorded as an `Event` in an event log instead of being
executed, so "fired exactly once, with outcome (v, e)" is a statement
about the log.  A user function that may `panic` is a value of
`PanicOr`; `safecall` (src/future/cf.go:282) traps it.  The Go runtime
faults the model cares about — `close` of a nil or already-closed
channel, calling a nil `context.CancelFunc` — are reported in the
`panicked` field of a step result.
-/

namespace GoFuture

/-- The error values the library stores in `f.err`: the sentinel errors of
src/future/cf.go:13-17, the `errors.New("no futures")` of `AnyOf`, the
`fmt.Errorf("panic: %v", r)` produced by `safecall`, and opaque
user-supplied errors. -/
inductive GoError where
  | canceled
  | timeout
  | nilFunction
  | noFutures
  | panicked (msg : String)
  | user (code : Nat)
deriving DecidableEq, Repr

/-- The three values of the `state` field (src/future/cf.go:19-23). -/
def statePending : Nat := 0

/-- Transitional state taken by the thread that wins the completion CAS. -/
def stateCompleting : Nat := 1

/-- Terminal state. -/
def stateDone : Nat := 2

/-- The `doneChan chan struct\x7b\x7d` field of a cell: a Go channel pointer is
either nil (`unallocated`), an open channel, or a closed channel. -/
inductive ChanState where
  | unallocated
  | opened
  | closed
deriving DecidableEq, Repr

/-- A record of one continuation invocation `cb(val, err)`. -/
inductive Event (T : Type) where
  | invoke (cb : Nat) (val : T) (err : Option GoError)
deriving DecidableEq, Repr

/-- The state of one `CompletableFuture[T]` (src/future/cf.go:34-51).
`cb0`/`cbs` hold continuation ids; `hasCancelFn` is whether `f.cancel`
is non-nil (it is nil when the parent context is not cancellable,
src/future/cf.go:57-70); `ctxCanceled` records whether `f.cancel()` has
been invoked. -/
structure Cell (T : Type) where
  state : Nat
  value : T
  err : Option GoError
  cb0 : Option Nat
  cbs : List Nat
  doneChan : ChanState
  hasCancelFn : Bool
  ctxCanceled : Bool
deriving DecidableEq, Repr

/-- `NewWithContext` (src/future/cf.go:57): a pending cell; `f.cancel` is
non-nil exactly when the parent context is cancellable. -/
def NewWithContext (T : Type) [Inhabited T] (parentCancelable : Bool) : Cell T :=
  { state := statePending
    value := default
    err := none
    cb0 := none
    cbs := []
    doneChan := ChanState.unallocated
    hasCancelFn := parentCancelable
    ctxCanceled := false }

/-- `New` (src/future/cf.go:53): `context.Background()` is not cancellable,
so `f.cancel` is nil. -/
def New (T : Type) [Inhabited T] : Cell T := NewWithContext T false

/-- Result of one atomic operation on a cell: the new cell state, the log
of continuation invocations performed by this operation, the boolean
return value (for the completion methods), whether this operation closed
the cell's `doneChan`, and whether the Go runtime would have panicked
(close of nil/closed channel, call of nil function). -/
structure StepResult (T : Type) where
  cell : Cell T
  events : List (Event T)
  ret : Bool
  closedChan : Bool
  panicked : Bool
deriving DecidableEq, Repr

/-- `finishCompletion` (src/future/cf.go:185): store `stateDone`, close
`doneChan` if it exists (closing a closed channel would be a runtime
panic — recorded, and never reachable, see `step_no_panic`), snapshot
and clear `cb0`/`cbs`, then fire them in order with the stored outcome. -/
def finishCompletion {T : Type} (f : Cell T) : StepResult T :=
  let dc := match f.doneChan with
    | ChanState.unallocated => ChanState.unallocated
    | _ => ChanState.closed
  let evs :=
    (match f.cb0 with
      | some c => [Event.invoke c f.value f.err]
      | none => []) ++ f.cbs.map (fun c => Event.invoke c f.value f.err)
  { cell := { f with state := stateDone, doneChan := dc, cb0 := none, cbs := [] }
    events := evs
    ret := true
    closedChan := f.doneChan = ChanState.opened
    panicked := f.doneChan = ChanState.closed }

/-- `Complete` (src/future/cf.go:167): CAS `Pending → Completing`; the
winner stores the value and runs `finishCompletion`; a loser is a no-op
returning false. -/
def Complete {T : Type} (f : Cell T) (v : T) : StepResult T :=
  if f.state = statePending then
    finishCompletion { f with state := stateCompleting, value := v }
  else
    { cell := f, events := [], ret := false, closedChan := false, panicked := false }

/-- `CompleteExceptionally` (src/future/cf.go:176): same CAS protocol,
storing a failure. -/
def CompleteExceptionally {T : Type} (f : Cell T) (e : GoError) : StepResult T :=
  if f.state = statePending then
    finishCompletion { f with state := stateCompleting, err := some e }
  else
    { cell := f, events := [], ret := false, closedChan := false, panicked := false }

/-- `Cancel` (src/future/cf.go:253): same CAS protocol; records
`ErrCanceled`, invokes `f.cancel()` only if it is non-nil. -/
def Cancel {T : Type} (f : Cell T) : StepResult T :=
  if f.state = statePending then
    finishCompletion
      { f with state := stateCompleting
               err := some GoError.canceled
               ctxCanceled := if f.hasCancelFn then true else f.ctxCanceled }
  else
    { cell := f, events := [], ret := false, closedChan := false, panicked := false }

/-- The completion calls of claim C1 (`Complete`, `CompleteExceptionally`,
`Cancel`), with their arguments. -/
inductive COp (T : Type) where
  | complete (v : T)
  | fail (e : GoError)
  | cancel
deriving DecidableEq, Repr

/-- Dispatch one completion call. -/
def applyCOp {T : Type} (f : Cell T) : COp T → StepResult T
  | COp.complete v => Complete f v
  | COp.fail e => CompleteExceptionally f e
  | COp.cancel => Cancel f

/-- Run a sequence of completion calls, collecting the boolean results. -/
def runCOps {T : Type} (f : Cell T) : List (COp T) → Cell T × List Bool
  | [] => (f, [])
  | o :: os =>
    let r := applyCOp f o
    let rest := runCOps r.cell os
    (rest.1, r.ret :: rest.2)

/-- The outcome a completion call stores if it wins (the failure stored by
`Complete` is none; `Cancel` stores `ErrCanceled`). -/
def copErr {T : Type} : COp T → Option GoError
  | COp.complete _ => none
  | COp.fail e => some e
  | COp.cancel => some GoError.canceled

/-- `whenCompleteInternal` (src/future/cf.go:229): if the cell is already
`Done`, invoke the continuation immediately on the registering thread
(no queuing); otherwise, under the mutex, re-check the state (the
completing thread may have finished meanwhile — in the atomic-step model
the state cannot change between the two checks, so the second check
repeats the first) and queue the continuation into `cb0` or `cbs`. -/
def whenCompleteInternal {T : Type} (f : Cell T) (cb : Nat) : Cell T × List (Event T) :=
  if f.state = stateDone then
    (f, [Event.invoke cb f.value f.err])
  else if f.state = stateDone then
    (f, [Event.invoke cb f.value f.err])
  else
    match f.cb0 with
    | none => ({ f with cb0 := some cb }, [])
    | some _ => ({ f with cbs := f.cbs ++ [cb] }, [])

/-- The body of a user-supplied Go function: it either returns a value or
panics with a message. -/
inductive PanicOr (R : Type) where
  | ok (v : R)
  | panics (msg : String)
deriving DecidableEq, Repr

/-- `safecall` (src/future/cf.go:282): runs the function under a
`defer`/`recover`, converting a panic into `fmt.Errorf("panic: %v", r)`;
the named result keeps its zero value in that case.  The abort never
escapes: `safecall` is total. -/
def safecall {R : Type} [Inhabited R] (fn : PanicOr R) : R × Option GoError :=
  match fn with
  | PanicOr.ok v => (v, none)
  | PanicOr.panics msg => (default, some (GoError.panicked msg))

/-- The `execTask` closure of `uniApply` (src/unnamed/part_001:26-49), in
its inline (`async = false`) form: a source failure is forwarded to the
destination; otherwise `fn` runs inside `safecall` and the destination
gets its value, or its trapped panic as a failure. -/
def uniApplyTask {T V : Type} [Inhabited V] (dest : Cell V) (fn : T → PanicOr V)
    (val : T) (err : Option GoError) : StepResult V :=
  match err with
  | some e => CompleteExceptionally dest e
  | none =>
    let r := safecall (fn val)
    match r.2 with
    | some pe => CompleteExceptionally dest pe
    | none => Complete dest r.1

/-- `uniApply` (src/unnamed/part_001:23): creates a pending destination
cell; if the source is already `Done` the task runs on the fast path
with the stored outcome, otherwise `execTask` is registered via
`whenCompleteInternal` and later receives the final outcome (exactly
once, by `continuation_registration`) — the destination is still pending
when `uniApply` returns in that case. -/
def uniApply {T V : Type} [Inhabited V] (src : Cell T) (fn : T → PanicOr V) : Cell V :=
  if src.state = stateDone then (uniApplyTask (New V) fn src.value src.err).cell
  else New V

/-- The `execTask` closure of `uniWhenComplete` (src/unnamed/part_001:176-188),
inline form: the observer `action` runs inside an anonymous function with
`defer func() \x7b recover() \x7d()`, so its result — including a panic — is
discarded, and the destination is then completed with the original
source outcome. -/
def uniWhenCompleteTask {T : Type} (dest : Cell T)
    (action : T → Option GoError → PanicOr Unit) (val : T) (err : Option GoError) :
    StepResult T :=
  let _ := action val err
  match err with
  | some e => CompleteExceptionally dest e
  | none => Complete dest val

/-- `uniWhenComplete` (src/unnamed/part_001:173): fast path on a `Done`
source, registration otherwise (the destination is then still pending at
return and receives the final outcome via the queued task). -/
def uniWhenComplete {T : Type} [Inhabited T] (src : Cell T)
    (action : T → Option GoError → PanicOr Unit) : Cell T :=
  if src.state = stateDone then
    (uniWhenCompleteTask (New T) action src.value src.err).cell
  else New T

/-- The shared state of `AllOf` (src/unnamed/part_000:12): the countdown
`pending` of not-yet-succeeded sources (an `int32`), the settle guard
`doneFlag`, and the aggregate destination cell. -/
structure AllOfState where
  pending : Int
  doneFlag : Bool
  dest : Cell Unit
deriving DecidableEq, Repr

/-- `AllOf` over `n` source futures, at the moment it returns: a zero-length
input completes the destination immediately; otherwise the countdown is
`n` and the destination is pending, to be driven by the per-source
continuations (`allOfStep`). -/
def AllOf (n : Nat) : AllOfState :=
  if n = 0 then
    { pending := 0, doneFlag := false, dest := (Complete (New Unit) ()).cell }
  else
    { pending := (n : Int), doneFlag := false, dest := New Unit }

/-- The continuation `AllOf` registers on each source
(src/unnamed/part_000:21-36), applied to that source's final `err`: an
early return when the guard is already taken; on a failure, the CAS on
`doneFlag` elects this continuation to fail the destination; on a
success, decrement the countdown and, at zero, the CAS elects it to
complete the destination. -/
def allOfStep (s : AllOfState) (err : Option GoError) : AllOfState :=
  if s.doneFlag then s
  else
    match err with
    | some e =>
      if s.doneFlag = false then
        { s with doneFlag := true, dest := (CompleteExceptionally s.dest e).cell }
      else s
    | none =>
      if s.pending - 1 = 0 then
        if s.doneFlag = false then
          { pending := s.pending - 1, doneFlag := true, dest := (Complete s.dest ()).cell }
        else { s with pending := s.pending - 1 }
      else { s with pending := s.pending - 1 }

/-- Run the `AllOf` continuations in the order the sources settle. -/
def allOfRun (s : AllOfState) (evs : List (Option GoError)) : AllOfState :=
  evs.foldl allOfStep s

/-- The shared state of `AnyOf` (src/unnamed/part_000:43): the single
atomic guard `doneFlag` and the destination cell. -/
structure AnyOfState (T : Type) where
  doneFlag : Bool
  dest : Cell T
deriving DecidableEq, Repr

/-- `AnyOf` over `n` source futures, at the moment it returns: an empty
input immediately fails the destination with `errors.New("no futures")`;
otherwise the destination is pending, to be driven by the per-source
continuations (`anyOfStep`). -/
def AnyOf (T : Type) [Inhabited T] (n : Nat) : AnyOfState T :=
  if n = 0 then
    { doneFlag := false, dest := (CompleteExceptionally (New T) GoError.noFutures).cell }
  else
    { doneFlag := false, dest := New T }

/-- The continuation `AnyOf` registers on each source
(src/unnamed/part_000:51-59), applied to that source's final outcome:
the CAS on `doneFlag` elects exactly the first settling source, which
transfers its value or failure to the destination; every later source
loses the CAS and is discarded. -/
def anyOfStep {T : Type} (s : AnyOfState T) (ev : T × Option GoError) : AnyOfState T :=
  if s.doneFlag = false then
    { doneFlag := true
      dest :=
        match ev.2 with
        | some e => (CompleteExceptionally s.dest e).cell
        | none => (Complete s.dest ev.1).cell }
  else s

/-- Run the `AnyOf` continuations in the order the sources settle. -/
def anyOfRun {T : Type} (s : AnyOfState T) (evs : List (T × Option GoError)) : AnyOfState T :=
  evs.foldl anyOfStep s

/-- The channel a blocking thread is handed: the cell's own `doneChan` or
the process-wide, pre-closed `closedChan` (src/future/cf.go:26). -/
inductive WaitChan where
  | cellChan
  | globalClosedChan
deriving DecidableEq, Repr

/-- `getDoneChanLazy` (src/future/cf.go:144), one mutex-protected critical
section: an existing channel is returned as is; a `Done` cell with no
channel gets the global `closedChan` *without storing it* (so
`finishCompletion` can never close it by mistake); only a not-yet-done
cell allocates.  The boolean reports whether a fresh channel was
allocated. -/
def getDoneChanLazy {T : Type} (f : Cell T) : Cell T × WaitChan × Bool :=
  if f.doneChan ≠ ChanState.unallocated then (f, WaitChan.cellChan, false)
  else if f.state = stateDone then (f, WaitChan.globalClosedChan, false)
  else ({ f with doneChan := ChanState.opened }, WaitChan.cellChan, true)

/-- `Join` (src/future/cf.go:121): the fast path returns the stored outcome
when the cell is `Done`; otherwise the thread parks on the channel
obtained from `getDoneChanLazy` (outcome `none` here: the blocked read
resumes only after completion closes the channel, and then returns the
then-stored `f.value, f.err`).  The boolean reports allocation. -/
def Join {T : Type} (f : Cell T) : Cell T × Option (T × Option GoError) × Bool :=
  if f.state = stateDone then (f, some (f.value, f.err), false)
  else
    let r := getDoneChanLazy f
    (r.1, none, r.2.2)

/-- `ObtrudeValue` (src/future/cf.go:265): under the mutex, overwrite the
outcome and force `state` to `Done` — without touching `doneChan` and
without draining or firing `cb0`/`cbs`. -/
def ObtrudeValue {T : Type} (f : Cell T) (v : T) : Cell T :=
  { f with value := v, err := none, state := stateDone }

/-- `ObtrudeException` (src/future/cf.go:273): likewise, zeroing the value
and storing the failure. -/
def ObtrudeException {T : Type} [Inhabited T] (f : Cell T) (e : GoError) : Cell T :=
  { f with value := default, err := some e, state := stateDone }

/-- The timer-win branch of `OrTimeout` (src/future/timeout.go:9): a
lock-free done-check, a re-check under the mutex, then — outside the
lock — `CompleteExceptionally(ErrTimeout)`, whose CAS makes the attempt
a no-op if the producer won the race meanwhile. -/
def orTimeoutFire {T : Type} (f : Cell T) : StepResult T :=
  if f.state = stateDone then
    { cell := f, events := [], ret := false, closedChan := false, panicked := false }
  else if f.state = stateDone then
    { cell := f, events := [], ret := false, closedChan := false, panicked := false }
  else CompleteExceptionally f GoError.timeout

/-- The legacy `Cancel` variant kept in src/future/timeout.go:46, written
against an earlier revision of the cell (its `callbacks` slice is
`cb0`/`cbs` here): after its two done-checks it stores `stateDone` and
`ErrCanceled`, then unconditionally runs `close(f.doneChan)` — a Go
runtime panic when the channel was never allocated (nil) or is already
closed — and then unconditionally calls `f.cancel()` — a nil-function
call panic when the cell has no cancellable parent context.  Execution
stops at the first panic. -/
def CancelVariant {T : Type} [Inhabited T] (f : Cell T) : StepResult T :=
  if f.state = stateDone then
    { cell := f, events := [], ret := false, closedChan := false, panicked := false }
  else
    let f1 := { f with state := stateDone, err := some GoError.canceled }
    if f.doneChan ≠ ChanState.opened then
      { cell := f1, events := [], ret := false, closedChan := false, panicked := true }
    else
      let f2 := { f1 with doneChan := ChanState.closed, cb0 := none, cbs := [] }
      if f.hasCancelFn = false then
        { cell := f2, events := [], ret := false, closedChan := true, panicked := true }
      else
        { cell := { f2 with ctxCanceled := true }
          events :=
            (match f.cb0 with
              | some c => [Event.invoke c default (some GoError.canceled)]
              | none => []) ++
            f.cbs.map (fun c => Event.invoke c default (some GoError.canceled))
          ret := true
          closedChan := true
          panicked := false }

/-- All atomic operations a thread can perform on one cell, at the
linearization granularity of the source (one CAS-protected completion,
or one mutex-protected critical section). -/
inductive Op (T : Type) where
  | complete (v : T)
  | fail (e : GoError)
  | cancel
  | obtrudeValue (v : T)
  | obtrudeException (e : GoError)
  | register (cb : Nat)
  | join
  | timerFire
deriving DecidableEq, Repr

/-- Dispatch one atomic operation. -/
def step {T : Type} [Inhabited T] (f : Cell T) : Op T → StepResult T
  | Op.complete v => Complete f v
  | Op.fail e => CompleteExceptionally f e
  | Op.cancel => Cancel f
  | Op.obtrudeValue v =>
    { cell := ObtrudeValue f v, events := [], ret := false, closedChan := false,
      panicked := false }
  | Op.obtrudeException e =>
    { cell := ObtrudeException f e, events := [], ret := false, closedChan := false,
      panicked := false }
  | Op.register cb =>
    let r := whenCompleteInternal f cb
    { cell := r.1, events := r.2, ret := false, closedChan := false, panicked := false }
  | Op.join =>
    { cell := (Join f).1, events := [], ret := false, closedChan := false,
      panicked := false }
  | Op.timerFire => orTimeoutFire f

/-- Run a sequence of atomic operations; returns the final cell, the
number of times the cell's channel was closed, and whether any step
panicked. -/
def runTrace {T : Type} [Inhabited T] (f : Cell T) : List (Op T) → Cell T × Nat × Bool
  | [] => (f, 0, false)
  | o :: os =>
    let r := step f o
    let rest := runTrace r.cell os
    (rest.1, (if r.closedChan then 1 else 0) + rest.2.1, r.panicked || rest.2.2)

/-- The `doneChan` safety invariant of the lazy design: a closed channel is
only ever observed on a `Done` cell. -/
def chanInv {T : Type} (f : Cell T) : Prop :=
  f.doneChan = ChanState.closed → f.state = stateDone

theorem applyCOp_done {T : Type} (f : Cell T) (o : COp T) (h : f.state = stateDone) :
    applyCOp f o = { cell := f, events := [], ret := false, closedChan := false, panicked := false } := by
  cases o <;> simp [applyCOp, Complete, CompleteExceptionally, Cancel, h, statePending, stateDone]

theorem applyCOp_pending_state {T : Type} (f : Cell T) (o : COp T) (h : f.state = statePending) :
    (applyCOp f o).cell.state = stateDone ∧ (applyCOp f o).ret = true := by
  cases o <;> simp [applyCOp, Complete, CompleteExceptionally, Cancel, finishCompletion, h]

theorem runCOps_done {T : Type} (f : Cell T) (os : List (COp T)) (h : f.state = stateDone) :
    runCOps f os = (f, os.map (fun _ => false)) := by
  induction os with
  | nil => simp [runCOps]
  | cons o os ih => simp [runCOps, applyCOp_done f o h, ih]

/-- C1.  Exactly-once completion: from a pending cell, for any nonempty
sequence of `Complete` / `CompleteExceptionally` / `Cancel` calls (in any
order — the CAS on `state` linearizes concurrent calls), the first call
returns true and performs the Pending-to-Done transition, every later
call returns false and leaves the cell unchanged, and the stored outcome
is the argument of that winning first call. -/
theorem exactly_once_completion {T : Type} (f : Cell T) (o : COp T) (os : List (COp T))
    (hp : f.state = statePending) (he : f.err = none) :
    (runCOps f (o :: os)).2 = true :: os.map (fun _ => false) ∧
    (runCOps f (o :: os)).1 = (applyCOp f o).cell ∧
    (runCOps f (o :: os)).1.state = stateDone ∧
    (runCOps f (o :: os)).1.err = copErr o ∧
    (∀ v, o = COp.complete v → (runCOps f (o :: os)).1.value = v) := by
  have h1 := applyCOp_pending_state f o hp
  have h2 := runCOps_done (applyCOp f o).cell os h1.1
  have hfst : (runCOps f (o :: os)).1 = (applyCOp f o).cell := by
    simp [runCOps, h2]
  refine ⟨by simp [runCOps, h2, h1.2], hfst, ?_, ?_, ?_⟩
  · rw [hfst]; exact h1.1
  · rw [hfst]
    cases o <;>
      simp [applyCOp, Complete, CompleteExceptionally, Cancel, finishCompletion, hp, he, copErr]
  · intro v hv
    subst hv
    rw [hfst]
    simp [applyCOp, Complete, finishCompletion, hp]

/-- Witness for C1 at a concrete input: three racing calls on a fresh
cell; only the first succeeds and its value 7 is stored. -/
theorem exactly_once_completion_witness :
    (New Nat).state = statePending ∧
    (runCOps (New Nat) [COp.complete 7, COp.cancel, COp.fail GoError.timeout]).2 =
      [true, false, false] ∧
    (runCOps (New Nat) [COp.complete 7, COp.cancel, COp.fail GoError.timeout]).1.value = 7 := by
  have h := exactly_once_completion (New Nat) (COp.complete 7)
    [COp.cancel, COp.fail GoError.timeout] (by decide) (by decide)
  refine ⟨by decide, ?_, h.2.2.2.2 7 rfl⟩
  rw [h.1]
  decide

theorem count_invoke_map {T : Type} [DecidableEq T] (l : List Nat) (cb : Nat) (v : T)
    (e : Option GoError) :
    (l.map (fun c => Event.invoke c v e)).count (Event.invoke cb v e) = l.count cb := by
  induction l with
  | nil => simp
  | cons a l ih =>
    by_cases h : a = cb <;> simp [List.count_cons, ih, h]

/-- C2.  Continuation registration: a continuation registered on a pending
cell is queued without being invoked, and the completion that follows
invokes it exactly once with the final outcome; a continuation
registered on an already-`Done` cell is invoked immediately and
synchronously on the registering thread with the stored outcome, leaving
the cell unchanged (no queuing); and registering after completion yields
exactly the invocation `(v, none)` that registering before the
completion `Complete v` would have produced. -/
theorem continuation_registration {T : Type} [DecidableEq T]
    (f : Cell T) (cb : Nat) (v : T)
    (hp : f.state = statePending) (he : f.err = none)
    (hcb0 : f.cb0 ≠ some cb) (hcbs : cb ∉ f.cbs) :
    (whenCompleteInternal f cb).2 = [] ∧
    (Complete (whenCompleteInternal f cb).1 v).events.count (Event.invoke cb v none) = 1 ∧
    (∀ g : Cell T, g.state = stateDone →
      whenCompleteInternal g cb = (g, [Event.invoke cb g.value g.err])) ∧
    (whenCompleteInternal (Complete f v).cell cb).2 = [Event.invoke cb v none] := by
  refine ⟨?_, ?_, ?_, ?_⟩
  · cases h0 : f.cb0 <;> simp [whenCompleteInternal, hp, statePending, stateDone, h0]
  · cases h0 : f.cb0 with
    | none =>
      simp [whenCompleteInternal, hp, statePending, stateDone, h0, Complete,
        finishCompletion, he, List.count_cons, count_invoke_map,
        List.count_eq_zero.mpr hcbs]
    | some c =>
      have hc : ¬ (c = cb) := fun h => hcb0 (h ▸ h0)
      simp [whenCompleteInternal, hp, statePending, stateDone, h0, Complete,
        finishCompletion, he, List.count_cons, count_invoke_map, List.count_append,
        List.count_eq_zero.mpr hcbs, hc]
  · intro g hg
    simp [whenCompleteInternal, hg, stateDone]
  · simp [Complete, hp, finishCompletion, whenCompleteInternal, stateDone, he]

/-- Witness for C2 at a concrete input: a fresh cell, continuation id 0,
value 5. -/
theorem continuation_registration_witness :
    (whenCompleteInternal (New Nat) 0).2 = [] ∧
    (Complete (whenCompleteInternal (New Nat) 0).1 5).events.count (Event.invoke 0 5 none) = 1 := by
  have h := continuation_registration (New Nat) 0 5 (by decide) (by decide)
    (by decide) (by decide)
  exact ⟨h.1, h.2.1⟩

/-- C3.  `ThenApply` outcome propagation, on the settled source outcome
(for a pending source the registered `execTask` receives exactly the
same final `(value, err)` pair, by C2): the destination fails with
exactly the source's failure; on a source value `v` it completes with
`fn v` when `fn` returns normally, and fails with the trapped
`ComputationFailure` (`panic: ...` error) when `fn` panics — the panic
is consumed by `safecall` and never escapes.  Stated both for the
already-`Done` fast path of `uniApply` and for the task at an arbitrary
delivered outcome. -/
theorem thenApply_outcome {T V : Type} [Inhabited V] (src : Cell T) (fn : T → PanicOr V)
    (hd : src.state = stateDone) :
    (∀ e, src.err = some e →
      (uniApply src fn).err = some e ∧ (uniApply src fn).state = stateDone) ∧
    (∀ u, src.err = none → fn src.value = PanicOr.ok u →
      (uniApply src fn).value = u ∧ (uniApply src fn).err = none ∧
      (uniApply src fn).state = stateDone) ∧
    (∀ m, src.err = none → fn src.value = PanicOr.panics m →
      (uniApply src fn).err = some (GoError.panicked m) ∧
      (uniApply src fn).state = stateDone) ∧
    (∀ (val : T) (e : GoError),
      (uniApplyTask (New V) fn val (some e)).cell.err = some e) ∧
    (∀ (val : T) (u : V), fn val = PanicOr.ok u →
      (uniApplyTask (New V) fn val none).cell.value = u ∧
      (uniApplyTask (New V) fn val none).cell.err = none) ∧
    (∀ (val : T) (m : String), fn val = PanicOr.panics m →
      (uniApplyTask (New V) fn val none).cell.err = some (GoError.panicked m)) := by
  refine ⟨?_, ?_, ?_, ?_, ?_, ?_⟩
  · intro e he
    simp [uniApply, hd, uniApplyTask, he, CompleteExceptionally, New, NewWithContext,
      finishCompletion, statePending, stateDone]
  · intro u he hfn
    simp [uniApply, hd, uniApplyTask, he, hfn, safecall, Complete, New, NewWithContext,
      finishCompletion, statePending, stateDone]
  · intro m he hfn
    simp [uniApply, hd, uniApplyTask, he, hfn, safecall, CompleteExceptionally, New,
      NewWithContext, finishCompletion, statePending, stateDone]
  · intro val e
    simp [uniApplyTask, CompleteExceptionally, New, NewWithContext, finishCompletion,
      statePending, stateDone]
  · intro val u hfn
    simp [uniApplyTask, hfn, safecall, Complete, New, NewWithContext, finishCompletion,
      statePending, stateDone]
  · intro val m hfn
    simp [uniApplyTask, hfn, safecall, CompleteExceptionally, New, NewWithContext,
      finishCompletion, statePending, stateDone]

/-- Witness for C3 at a concrete input: a source completed with 3 and the
successor function; the destination holds 4.  The panicking case is
exercised through the task conjunct at the same theorem application. -/
theorem thenApply_outcome_witness :
    (uniApply (Complete (New Nat) 3).cell (fun n => PanicOr.ok (n + 1))).value = 4 ∧
    (uniApplyTask (New Nat) (fun (_ : Nat) => PanicOr.panics "boom") 3 none).cell.err =
      some (GoError.panicked "boom") := by
  have h := thenApply_outcome (Complete (New Nat) 3).cell
    (fun n => PanicOr.ok (n + 1)) (by decide)
  have h2 := thenApply_outcome (Complete (New Nat) 3).cell
    (fun (_ : Nat) => (PanicOr.panics "boom" : PanicOr Nat)) (by decide)
  exact ⟨(h.2.1 4 (by decide) (by decide)).1, h2.2.2.2.2.2 3 "boom" rfl⟩

/-- C8.  `WhenComplete` is outcome-preserving: the destination settles with
exactly the source's original failure (or its original value on
success), and the result does not depend on the observer at all — in
particular a panicking observer (swallowed by the `recover`) can neither
change, mask, nor replace the outcome, as the two-action equality
conjunct states. -/
theorem whenComplete_preserves_outcome {T : Type} [Inhabited T] (src : Cell T)
    (action : T → Option GoError → PanicOr Unit) (hd : src.state = stateDone) :
    (uniWhenComplete src action).state = stateDone ∧
    (uniWhenComplete src action).err = src.err ∧
    (src.err = none → (uniWhenComplete src action).value = src.value) ∧
    (∀ other : T → Option GoError → PanicOr Unit,
      uniWhenComplete src action = uniWhenComplete src other) := by
  refine ⟨?_, ?_, ?_, ?_⟩
  · cases he : src.err <;>
      simp [uniWhenComplete, hd, uniWhenCompleteTask, he, Complete, CompleteExceptionally,
        New, NewWithContext, finishCompletion, statePending, stateDone]
  · cases he : src.err <;>
      simp [uniWhenComplete, hd, uniWhenCompleteTask, he, Complete, CompleteExceptionally,
        New, NewWithContext, finishCompletion, statePending, stateDone]
  · intro he
    simp [uniWhenComplete, hd, uniWhenCompleteTask, he, Complete, New, NewWithContext,
      finishCompletion, statePending, stateDone]
  · intro other
    cases he : src.err <;>
      simp [uniWhenComplete, hd, uniWhenCompleteTask, he]

/-- Witness for C8 at a concrete input: a source completed with 9 observed
by a panicking action still yields 9 with no failure. -/
theorem whenComplete_preserves_outcome_witness :
    (uniWhenComplete (Complete (New Nat) 9).cell
      (fun _ _ => PanicOr.panics "observer boom")).value = 9 ∧
    (uniWhenComplete (Complete (New Nat) 9).cell
      (fun _ _ => PanicOr.panics "observer boom")).err = none := by
  have h := whenComplete_preserves_outcome (Complete (New Nat) 9).cell
    (fun _ _ => PanicOr.panics "observer boom") (by decide)
  exact ⟨by rw [h.2.2.1 (by decide)]; decide, by rw [h.2.1]; decide⟩

theorem allOfRun_done (evs : List (Option GoError)) (s : AllOfState)
    (h : s.doneFlag = true) : allOfRun s evs = s := by
  induction evs with
  | nil => rfl
  | cons e evs ih => simp [allOfRun, allOfStep, h] at ih ⊢; exact ih

theorem allOfRun_append (s : AllOfState) (l1 l2 : List (Option GoError)) :
    allOfRun s (l1 ++ l2) = allOfRun (allOfRun s l1) l2 := by
  simp [allOfRun, List.foldl_append]

theorem allOfRun_successes (evs : List (Option GoError)) :
    ∀ s : AllOfState, (∀ x ∈ evs, x = none) → s.doneFlag = false →
    (evs.length : Int) < s.pending →
    allOfRun s evs =
      { pending := s.pending - evs.length, doneFlag := false, dest := s.dest } := by
  induction evs with
  | nil => intro s _ h _; cases s; simp_all [allOfRun]
  | cons e evs ih =>
    intro s hall hdf hlt
    have he : e = none := hall e (by simp)
    subst he
    simp only [List.length_cons] at hlt
    push_cast at hlt
    have hne : ¬ (s.pending - 1 = 0) := by omega
    have hstep : allOfStep s none = { s with pending := s.pending - 1 } := by
      simp [allOfStep, hdf, hne]
    have hrec := ih { s with pending := s.pending - 1 }
      (fun x hx => hall x (by simp [hx])) (by simp [hdf])
      (by simp only; omega)
    simp only [allOfRun, List.foldl_cons, List.length_cons] at hrec ⊢
    rw [hstep, hrec]
    simp only [AllOfState.mk.injEq, and_true, eq_self_iff_true, true_and]
    push_cast
    omega

/-- C4.  `AllOf` is fail-fast: with zero sources the aggregate is already
successfully completed when `AllOf` returns; the first failure to be
observed (after any number of earlier successes) settles the aggregate
with exactly that failure at that moment — the events of the remaining
sources are then ignored, so the aggregate does not wait for them; and
when every source succeeds the countdown reaches zero and the aggregate
succeeds. -/
theorem allOf_fail_fast (n : Nat) (pre post : List (Option GoError)) (e : GoError)
    (hall : ∀ x ∈ pre, x = none) (hn : n = pre.length + 1 + post.length) :
    (AllOf 0).dest.state = stateDone ∧ (AllOf 0).dest.err = none ∧
    (allOfRun (AllOf n) (pre ++ [some e])).dest.err = some e ∧
    (allOfRun (AllOf n) (pre ++ [some e])).dest.state = stateDone ∧
    allOfRun (AllOf n) (pre ++ [some e] ++ post) = allOfRun (AllOf n) (pre ++ [some e]) ∧
    (∀ (m : Nat) (ss : List (Option GoError)), (∀ x ∈ ss, x = none) → ss.length = m →
      1 ≤ m → (allOfRun (AllOf m) ss).dest.err = none ∧
        (allOfRun (AllOf m) ss).dest.state = stateDone) := by
  have hn0 : ¬ (n = 0) := by omega
  have hinit : AllOf n = { pending := (n : Int), doneFlag := false, dest := New Unit } := by
    simp [AllOf, hn0]
  have hpre : allOfRun (AllOf n) pre =
      { pending := (n : Int) - pre.length, doneFlag := false, dest := New Unit } := by
    rw [hinit]
    exact allOfRun_successes pre _ hall rfl (by simp; omega)
  have hfail : allOfRun (AllOf n) (pre ++ [some e]) =
      { pending := (n : Int) - pre.length, doneFlag := true,
        dest := (CompleteExceptionally (New Unit) e).cell } := by
    rw [allOfRun_append, hpre]
    simp [allOfRun, allOfStep]
  refine ⟨by decide, by decide, ?_, ?_, ?_, ?_⟩
  · rw [hfail]
    simp [CompleteExceptionally, New, NewWithContext, finishCompletion, statePending,
      stateDone]
  · rw [hfail]
    simp [CompleteExceptionally, New, NewWithContext, finishCompletion, statePending,
      stateDone]
  · rw [allOfRun_append (AllOf n) (pre ++ [some e]) post, hfail]
    exact allOfRun_done post _ rfl
  · intro m ss hss hlen hm
    obtain ⟨k, rfl⟩ : ∃ k, m = k + 1 := ⟨m - 1, by omega⟩
    have hrep : ss = List.replicate (k + 1) none := by
      rw [List.eq_replicate_iff]
      exact ⟨hlen, hss⟩
    subst hrep
    rw [List.replicate_succ', allOfRun_append]
    have hinit1 : AllOf (k + 1) =
        { pending := ((k + 1 : Nat) : Int), doneFlag := false, dest := New Unit } := by
      simp [AllOf]
    have hsucc := allOfRun_successes (List.replicate k none)
      { pending := ((k + 1 : Nat) : Int), doneFlag := false, dest := New Unit }
      (fun x hx => List.eq_of_mem_replicate hx) rfl
      (by simp only [List.length_replicate]; push_cast; omega)
    rw [hinit1, hsucc]
    have hz : ((k + 1 : Nat) : Int) - (List.replicate (α := Option GoError) k none).length - 1
        = 0 := by
      simp
    simp only [allOfRun, List.foldl_cons, List.foldl_nil]
    simp [allOfStep, hz, Complete, New, NewWithContext, finishCompletion, statePending,
      stateDone]

/-- Witness for C4 at a concrete input: three sources, the second fails
with `Timeout` after one success; the aggregate carries that failure and
ignores the third source. -/
theorem allOf_fail_fast_witness :
    (allOfRun (AllOf 3) [none, some GoError.timeout]).dest.err = some GoError.timeout ∧
    allOfRun (AllOf 3) [none, some GoError.timeout, none] =
      allOfRun (AllOf 3) [none, some GoError.timeout] ∧
    (allOfRun (AllOf 2) [none, none]).dest.err = none := by
  have h := allOf_fail_fast 3 [none] [none] GoError.timeout (by simp) (by simp)
  refine ⟨h.2.2.1, h.2.2.2.2.1, (h.2.2.2.2.2 2 [none, none] (by simp) (by simp) (by omega)).1⟩

theorem anyOfRun_done {T : Type} (evs : List (T × Option GoError)) (s : AnyOfState T)
    (h : s.doneFlag = true) : anyOfRun s evs = s := by
  induction evs with
  | nil => rfl
  | cons e evs ih => simp [anyOfRun, anyOfStep, h] at ih ⊢; exact ih

/-- C5.  `AnyOf`: for the empty input the returned cell is already failed
with the no-candidates failure; for a non-empty input the first source
to settle determines the destination's outcome (its failure, or its
value) through the single `doneFlag` CAS, and every later-settling
source is discarded — the run equals its own first step. -/
theorem anyOf_first_wins {T : Type} [Inhabited T] (n : Nat) (ev : T × Option GoError)
    (rest : List (T × Option GoError)) (hn : 1 ≤ n) :
    (AnyOf T 0).dest.state = stateDone ∧
    (AnyOf T 0).dest.err = some GoError.noFutures ∧
    (anyOfRun (AnyOf T n) (ev :: rest)).dest.state = stateDone ∧
    (anyOfRun (AnyOf T n) (ev :: rest)).dest.err = ev.2 ∧
    (ev.2 = none → (anyOfRun (AnyOf T n) (ev :: rest)).dest.value = ev.1) ∧
    anyOfRun (AnyOf T n) (ev :: rest) = anyOfStep (AnyOf T n) ev := by
  have hn0 : ¬ (n = 0) := by omega
  have hstep : (anyOfStep (AnyOf T n) ev).doneFlag = true := by
    simp [anyOfStep, AnyOf, hn0]
  have hrun : anyOfRun (AnyOf T n) (ev :: rest) = anyOfStep (AnyOf T n) ev := by
    simp only [anyOfRun, List.foldl_cons]
    exact anyOfRun_done rest _ hstep
  refine ⟨?_, ?_, ?_, ?_, ?_, hrun⟩
  · simp [AnyOf, CompleteExceptionally, New, NewWithContext, finishCompletion,
      statePending, stateDone]
  · simp [AnyOf, CompleteExceptionally, New, NewWithContext, finishCompletion,
      statePending, stateDone]
  · rw [hrun]
    cases he : ev.2 <;>
      simp [anyOfStep, AnyOf, hn0, he, Complete, CompleteExceptionally, New,
        NewWithContext, finishCompletion, statePending, stateDone]
  · rw [hrun]
    cases he : ev.2 <;>
      simp [anyOfStep, AnyOf, hn0, he, Complete, CompleteExceptionally, New,
        NewWithContext, finishCompletion, statePending, stateDone]
  · intro he
    rw [hrun]
    simp [anyOfStep, AnyOf, hn0, he, Complete, New, NewWithContext, finishCompletion,
      statePending, stateDone]

/-- Witness for C5 at a concrete input: two sources; the first settles
with value 42, the second with a failure, which is discarded. -/
theorem anyOf_first_wins_witness :
    (anyOfRun (AnyOf Nat 2) [(42, none), (0, some GoError.timeout)]).dest.value = 42 ∧
    (anyOfRun (AnyOf Nat 2) [(42, none), (0, some GoError.timeout)]).dest.err = none := by
  have h := anyOf_first_wins 2 ((42 : Nat), none) [(0, some GoError.timeout)] (by omega)
  exact ⟨h.2.2.2.2.1 rfl, h.2.2.2.1⟩

theorem step_done {T : Type} [Inhabited T] (f : Cell T) (o : Op T)
    (h : f.state = stateDone) :
    (step f o).cell.state = stateDone ∧ (step f o).closedChan = false := by
  cases o <;>
    simp [step, Complete, CompleteExceptionally, Cancel, ObtrudeValue, ObtrudeException,
      whenCompleteInternal, Join, orTimeoutFire, h, statePending, stateDone]

theorem step_closed_imp {T : Type} [Inhabited T] (f : Cell T) (o : Op T)
    (h : (step f o).closedChan = true) : (step f o).cell.state = stateDone := by
  cases o with
  | complete v =>
    by_cases hp : f.state = statePending
    · simp [step, Complete, hp, finishCompletion]
    · simp [step, Complete, hp] at h
  | fail e =>
    by_cases hp : f.state = statePending
    · simp [step, CompleteExceptionally, hp, finishCompletion]
    · simp [step, CompleteExceptionally, hp] at h
  | cancel =>
    by_cases hp : f.state = statePending
    · simp [step, Cancel, hp, finishCompletion]
    · simp [step, Cancel, hp] at h
  | obtrudeValue v => simp [step] at h
  | obtrudeException e => simp [step] at h
  | register cb => simp [step] at h
  | join => simp [step] at h
  | timerFire =>
    by_cases hs : f.state = stateDone
    · simp [step, orTimeoutFire, hs] at h
    · by_cases hp : f.state = statePending
      · simp [step, orTimeoutFire, hs, CompleteExceptionally, hp, finishCompletion,
          statePending, stateDone]
      · simp [step, orTimeoutFire, hs, CompleteExceptionally, hp] at h

theorem step_inv {T : Type} [Inhabited T] (f : Cell T) (o : Op T) (hi : chanInv f) :
    chanInv (step f o).cell := by
  by_cases hs : f.state = stateDone
  · exact fun _ => (step_done f o hs).1
  · intro h
    cases o with
    | complete v =>
      by_cases hp : f.state = statePending
      · simp [step, Complete, hp, finishCompletion]
      · simp [step, Complete, hp] at h
        exact absurd (hi h) hs
    | fail e =>
      by_cases hp : f.state = statePending
      · simp [step, CompleteExceptionally, hp, finishCompletion]
      · simp [step, CompleteExceptionally, hp] at h
        exact absurd (hi h) hs
    | cancel =>
      by_cases hp : f.state = statePending
      · simp [step, Cancel, hp, finishCompletion]
      · simp [step, Cancel, hp] at h
        exact absurd (hi h) hs
    | obtrudeValue v => simp [step, ObtrudeValue]
    | obtrudeException e => simp [step, ObtrudeException]
    | register cb =>
      cases hc : f.cb0 <;> simp [step, whenCompleteInternal, hs, hc] at h <;>
        exact absurd (hi h) hs
    | join =>
      by_cases hdc : f.doneChan = ChanState.unallocated
      · simp [step, Join, getDoneChanLazy, hs, hdc] at h
      · simp [step, Join, getDoneChanLazy, hs, hdc] at h
        exact absurd (hi h) hs
    | timerFire =>
      by_cases hp : f.state = statePending
      · simp [step, orTimeoutFire, hs, CompleteExceptionally, hp, finishCompletion,
          statePending, stateDone]
      · simp [step, orTimeoutFire, hs, CompleteExceptionally, hp] at h
        exact absurd (hi h) hs

theorem step_no_panic {T : Type} [Inhabited T] (f : Cell T) (o : Op T) (hi : chanInv f) :
    (step f o).panicked = false := by
  by_cases hs : f.state = stateDone
  · have hns : ¬ (f.state = statePending) := by
      rw [hs]; simp [statePending, stateDone]
    cases o <;>
      simp [step, Complete, CompleteExceptionally, Cancel, whenCompleteInternal,
        Join, orTimeoutFire, hs, hns, statePending, stateDone]
  · have hnc : ¬ (f.doneChan = ChanState.closed) := fun hc => hs (hi hc)
    cases o with
    | complete v =>
      by_cases hp : f.state = statePending <;>
        simp [step, Complete, hp, finishCompletion, hnc]
    | fail e =>
      by_cases hp : f.state = statePending <;>
        simp [step, CompleteExceptionally, hp, finishCompletion, hnc]
    | cancel =>
      by_cases hp : f.state = statePending <;>
        simp [step, Cancel, hp, finishCompletion, hnc]
    | obtrudeValue v => simp [step]
    | obtrudeException e => simp [step]
    | register cb => simp [step]
    | join => simp [step]
    | timerFire =>
      by_cases hp : f.state = statePending
      · simp [step, orTimeoutFire, hs, CompleteExceptionally, hp, finishCompletion, hnc,
          statePending, stateDone]
      · simp only [statePending, stateDone] at hs hp
        simp [step, orTimeoutFire, CompleteExceptionally, hs, hp, statePending, stateDone]

theorem runTrace_closes_done {T : Type} [Inhabited T] (os : List (Op T)) (f : Cell T)
    (h : f.state = stateDone) : (runTrace f os).2.1 = 0 := by
  induction os generalizing f with
  | nil => rfl
  | cons o os ih =>
    have hd := step_done f o h
    simp [runTrace, hd.2, ih _ hd.1]

theorem runTrace_closes_le_one {T : Type} [Inhabited T] (os : List (Op T)) (f : Cell T) :
    (runTrace f os).2.1 ≤ 1 := by
  induction os generalizing f with
  | nil => simp [runTrace]
  | cons o os ih =>
    by_cases hc : (step f o).closedChan
    · have hd := step_closed_imp f o hc
      simp [runTrace, hc, runTrace_closes_done os _ hd]
    · simp [runTrace, hc, ih]

theorem runTrace_no_panic {T : Type} [Inhabited T] (os : List (Op T)) (f : Cell T)
    (hi : chanInv f) : (runTrace f os).2.2 = false := by
  induction os generalizing f with
  | nil => rfl
  | cons o os ih =>
    simp [runTrace, step_no_panic f o hi, ih _ (step_inv f o hi)]

/-- C6.  `Join` and the lazy wait signal: a `Done` cell's `Join` returns
the stored outcome at once, unchanged cell, no allocation; a cell found
`Done` inside `getDoneChanLazy` with no channel gets the global closed
sentinel and never allocates; a not-yet-done `Join` parks (and then
reads the completed cell's stored outcome); and along every operation
sequence from a fresh cell, the cell's channel is closed at most once —
by the single completion step — and no step ever closes an
already-closed or nil channel (no runtime panic). -/
theorem join_lazy_wait_signal {T : Type} [Inhabited T] (f g : Cell T) (ops : List (Op T))
    (hd : f.state = stateDone)
    (hg : g.state = stateDone) (hgc : g.doneChan = ChanState.unallocated) :
    Join f = (f, some (f.value, f.err), false) ∧
    getDoneChanLazy g = (g, WaitChan.globalClosedChan, false) ∧
    (∀ h : Cell T, h.state ≠ stateDone → (Join h).2.1 = none) ∧
    (runTrace (New T) ops).2.1 ≤ 1 ∧
    (runTrace (New T) ops).2.2 = false := by
  refine ⟨by simp [Join, hd], by simp [getDoneChanLazy, hgc, hg], ?_, ?_, ?_⟩
  · intro h hh
    simp [Join, hh]
  · exact runTrace_closes_le_one ops (New T)
  · exact runTrace_no_panic ops (New T) (by simp [chanInv, New, NewWithContext])

/-- Witness for C6 at concrete inputs: a completed cell joins to its value;
a done cell without a channel gets the global sentinel; a trace with a
register, two completions, a timer and a join closes once, no panic. -/
theorem join_lazy_wait_signal_witness :
    Join (Complete (New Nat) 5).cell =
      ((Complete (New Nat) 5).cell, some (5, none), false) ∧
    (runTrace (New Nat)
      [Op.register 0, Op.join, Op.complete 5, Op.timerFire, Op.cancel, Op.join]).2.1 = 1 ∧
    (runTrace (New Nat)
      [Op.register 0, Op.join, Op.complete 5, Op.timerFire, Op.cancel, Op.join]).2.2 =
      false := by
  have h := join_lazy_wait_signal (Complete (New Nat) 5).cell (Complete (New Nat) 5).cell
    [Op.register 0, Op.join, Op.complete 5, Op.timerFire, Op.cancel, Op.join]
    (by decide) (by decide) (by decide)
  exact ⟨by rw [h.1]; decide, by decide, h.2.2.2.2⟩

/-- C7.  `OrTimeout` race correctness: when the timer fires against an
already-completed cell, the attempt is a no-op — the original outcome
(value and error alike) is untouched; against a still-pending cell the
timer's `CompleteExceptionally(ErrTimeout)` wins, stores `Timeout` and
performs the done transition, and a second firing (or any later
completion attempt) is a no-op returning false — no double-completion
error. -/
theorem orTimeout_race {T : Type} [Inhabited T] (f g : Cell T)
    (hd : f.state = stateDone) (hp : g.state = statePending) :
    (orTimeoutFire f).cell = f ∧ (orTimeoutFire f).ret = false ∧
    (orTimeoutFire f).events = [] ∧
    (orTimeoutFire g).cell.err = some GoError.timeout ∧
    (orTimeoutFire g).cell.state = stateDone ∧
    (orTimeoutFire g).ret = true ∧
    (orTimeoutFire (orTimeoutFire g).cell).cell = (orTimeoutFire g).cell ∧
    (orTimeoutFire (orTimeoutFire g).cell).ret = false ∧
    (∀ o : COp T, (applyCOp (orTimeoutFire g).cell o).ret = false ∧
      (applyCOp (orTimeoutFire g).cell o).cell = (orTimeoutFire g).cell) := by
  have hgdone : (orTimeoutFire g).cell.state = stateDone := by
    simp [orTimeoutFire, hp, CompleteExceptionally, finishCompletion, statePending,
      stateDone]
  refine ⟨?_, ?_, ?_, ?_, hgdone, ?_, ?_, ?_, ?_⟩
  · simp [orTimeoutFire, hd]
  · simp [orTimeoutFire, hd]
  · simp [orTimeoutFire, hd]
  · simp [orTimeoutFire, hp, CompleteExceptionally, finishCompletion, statePending,
      stateDone]
  · simp [orTimeoutFire, hp, CompleteExceptionally, finishCompletion, statePending,
      stateDone]
  · generalize hc : (orTimeoutFire g).cell = c at hgdone ⊢
    simp [orTimeoutFire, hgdone]
  · generalize hc : (orTimeoutFire g).cell = c at hgdone ⊢
    simp [orTimeoutFire, hgdone]
  · intro o
    constructor
    · rw [applyCOp_done _ o hgdone]
    · rw [applyCOp_done _ o hgdone]

/-- Witness for C7 at concrete inputs: a cell completed with 1 is
unaffected; a fresh pending cell is timed out. -/
theorem orTimeout_race_witness :
    (orTimeoutFire (Complete (New Nat) 1).cell).cell = (Complete (New Nat) 1).cell ∧
    (orTimeoutFire (New Nat)).cell.err = some GoError.timeout := by
  have h := orTimeout_race (Complete (New Nat) 1).cell (New Nat) (by decide) (by decide)
  exact ⟨h.1, h.2.2.2.1⟩

/-- C9.  `Cancel`: evaluated on a fresh pending cell — created via `New`,
hence with no cancellable parent (`f.cancel` nil) and no blocked waiter
(`doneChan` nil) — the `Cancel` of src/future/cf.go returns true,
records `ErrCanceled` and does not panic; with a cancellable parent it
additionally signals the cancellation token; on the already-canceled
cell a second `Cancel` returns false and changes nothing.  The legacy
`Cancel` variant of src/future/timeout.go, however, panics on that very
same fresh cell (`close` of a nil channel, then a nil `f.cancel` call):
the code contradicts the claim's "never aborts". -/
theorem cancel_contract_and_variant_abort :
    (Cancel (New Nat)).ret = true ∧
    (Cancel (New Nat)).cell.err = some GoError.canceled ∧
    (Cancel (New Nat)).cell.state = stateDone ∧
    (Cancel (New Nat)).panicked = false ∧
    (Cancel (NewWithContext Nat true)).cell.ctxCanceled = true ∧
    (Cancel (Cancel (New Nat)).cell).ret = false ∧
    (Cancel (Cancel (New Nat)).cell).cell = (Cancel (New Nat)).cell ∧
    (CancelVariant (New Nat)).panicked = true := by
  refine ⟨by decide, by decide, by decide, by decide, by decide, by decide, by decide,
    by decide⟩

/-- C10.  `ObtrudeValue` / `ObtrudeException` frame effect: they store the
outcome and force the state to `Done`, but the wait signal is never
readied (the `doneChan` field is untouched, so a thread already parked
in `Join` on a previously created channel is never woken), no
continuation is invoked (no events), the queued continuations are left
in place yet can never fire — every later ordinary completion call is a
no-op that fires nothing. -/
theorem obtrude_frame_effect {T : Type} [Inhabited T] (f : Cell T) (v : T) (e : GoError) :
    (ObtrudeValue f v).state = stateDone ∧
    (ObtrudeValue f v).value = v ∧ (ObtrudeValue f v).err = none ∧
    (ObtrudeException f e).err = some e ∧ (ObtrudeException f e).state = stateDone ∧
    (ObtrudeValue f v).doneChan = f.doneChan ∧
    (ObtrudeException f e).doneChan = f.doneChan ∧
    (ObtrudeValue f v).cb0 = f.cb0 ∧ (ObtrudeValue f v).cbs = f.cbs ∧
    (ObtrudeException f e).cb0 = f.cb0 ∧ (ObtrudeException f e).cbs = f.cbs ∧
    (step f (Op.obtrudeValue v)).events = [] ∧
    (step f (Op.obtrudeException e)).events = [] ∧
    (step f (Op.obtrudeValue v)).closedChan = false ∧
    (∀ o : COp T, (applyCOp (ObtrudeValue f v) o).events = [] ∧
      (applyCOp (ObtrudeValue f v) o).ret = false ∧
      (applyCOp (ObtrudeValue f v) o).cell = ObtrudeValue f v) := by
  refine ⟨rfl, rfl, rfl, rfl, rfl, rfl, rfl, rfl, rfl, rfl, rfl, rfl, rfl, rfl, ?_⟩
  intro o
  have hdone : (ObtrudeValue f v).state = stateDone := rfl
  rw [applyCOp_done _ o hdone]
  exact ⟨rfl, rfl, rfl⟩

end GoFuture
